import Mathlib

/-!
Verification of the PumpGuard bounded-queue rate-limited resolution pipeline
and risk scorer.

Shallow embedding of the TypeScript sources:
- `src/index.ts`  — CLI, bounded pending queue, rate-limited mint worker,
  log-line formatter (`appendLaunch`) and parser (`parseLogLine`),
  configuration (`MINT_FETCH_RPS`, `MINT_QUEUE_MAX`).
- `src/risk.ts`   — risk scorer (`assessMintRisk`, `buildResult`).

Conventions of the embedding:
- JavaScript strings are modelled as `List Char`.
- JavaScript numbers are modelled by `JsNum` (a rational, NaN, or an
  infinity); score arithmetic in the scorer is integer-valued in the source
  (baseline 50 plus integer deltas), so scores are modelled as `Int`.
- `async` calls to external collaborators (RPC lookups) are modelled by
  passing the outcome of the call as an explicit parameter.
-/

namespace PumpGuard

/-- Characters of a string literal (JS strings as `List Char`). -/
def strChars (s : String) : List Char := s.data

/-- A JavaScript `number` as far as this program observes it:
a finite value (modelled as a rational), `NaN`, or an infinity. -/
inductive JsNum
  | num (q : ℚ)
  | nan
  | inf
  | negInf
deriving DecidableEq

/-- `Number.isFinite`. -/
def JsNum.isFinite : JsNum → Bool
  | .num _ => true
  | _ => false

/-- `src/index.ts` `MINT_QUEUE_MAX`: `raw ? Number(raw) : 2000`, then
`if (!Number.isFinite(n) || n <= 100) return 2000; return n;`.
The argument is the parsed numeric value of the environment variable
(`none` when the variable is unset or empty, i.e. falsy). -/
def mintQueueMaxOf (raw : Option JsNum) : ℚ :=
  match raw with
  | none => 2000
  | some (.num q) => if q ≤ 100 then 2000 else q
  | some _ => 2000

/-- `src/index.ts` `MINT_FETCH_RPS`: `raw ? Number(raw) : 3`, then
`if (!Number.isFinite(n) || n <= 0) return 3; return n;`. -/
def mintFetchRpsOf (raw : Option JsNum) : ℚ :=
  match raw with
  | none => 3
  | some (.num q) => if q ≤ 0 then 3 else q
  | some _ => 3

/-- `src/index.ts` `startMintWorker`:
`const intervalMs = Math.max(1000 / MINT_FETCH_RPS, 200);`. -/
def intervalMs (rps : ℚ) : ℚ := max (1000 / rps) 200

/-- The configuration the watch-mode pipeline starts with. -/
structure StartupConfig where
  queueMax : ℚ
  rps : ℚ
deriving DecidableEq

/-- Startup configuration computed by `src/index.ts` from the (parsed)
environment values: both module-level constants are total functions that
substitute a default for any invalid value; there is no failure path. -/
def startupConfig (rawQueueMax rawRps : Option JsNum) : StartupConfig :=
  { queueMax := mintQueueMaxOf rawQueueMax, rps := mintFetchRpsOf rawRps }

/-- `src/index.ts` `PendingTx`: one queued transaction awaiting mint lookup. -/
structure PendingTx where
  ts : List Char
  slot : Nat
  signature : List Char
deriving DecidableEq

/-- The overflow step of `src/index.ts` `runWatch`'s `onLogs` callback:
`if (pendingQueue.length >= MINT_QUEUE_MAX) { pendingQueue.shift();
droppedDueToOverflow++; }` — performed before the `push`. Returns the
queue after the (possible) eviction together with the number of drops
this step contributed (0 or 1). -/
def evictIfFull (cap : Nat) (q : List PendingTx) : List PendingTx × Nat :=
  if cap ≤ q.length then (q.drop 1, 1) else (q, 0)

/-- One `onLogs` arrival on the bounded ingest queue of `src/index.ts`
`runWatch`: evict the head if the queue is at capacity, then
`pendingQueue.push({ ts, slot, signature })`. The state is the queue
paired with the running `droppedDueToOverflow` counter. -/
def pushEvent (cap : Nat) (s : List PendingTx × Nat) (e : PendingTx) :
    List PendingTx × Nat :=
  ((evictIfFull cap s.1).1 ++ [e], s.2 + (evictIfFull cap s.1).2)

/-- Pushing a whole arrival sequence, in order, into an initially empty
queue with a zero drop counter (the state `runWatch` starts from). -/
def pushAll (cap : Nat) (evts : List PendingTx) : List PendingTx × Nat :=
  evts.foldl (pushEvent cap) ([], 0)

/-- Three concrete pending transactions used by witnesses. -/
def sampleTx1 : PendingTx := { ts := strChars "t1", slot := 1, signature := strChars "sigA" }

/-- Second sample transaction. -/
def sampleTx2 : PendingTx := { ts := strChars "t2", slot := 2, signature := strChars "sigB" }

/-- Third sample transaction. -/
def sampleTx3 : PendingTx := { ts := strChars "t3", slot := 3, signature := strChars "sigC" }

/-- `src/risk.ts` `RiskLevel`. -/
inductive RiskLevel
  | LOW
  | MEDIUM
  | HIGH
  | UNKNOWN
deriving DecidableEq

/-- The tag string literals pushed by `src/risk.ts` `assessMintRisk`,
as an enumeration. Spec names map to these code literals:
`NATIVE_ASSET` is the code's `"NATIVE_SOL"`, `PLATFORM_STYLE` is
`"PUMP_FUN_STYLE"`, and `NO_CHAIN_DATA` is `"NO_RPC"`. -/
inductive Tag
  | NATIVE_SOL
  | PUMP_FUN_STYLE
  | NO_RPC
  | MINT_UNKNOWN
  | UNINITIALIZED_MINT
  | RENOUNCED
  | MINT_AUTHORITY_SET
  | FREEZE_AUTHORITY_SET
  | DECIMALS_9
  | WEIRD_DECIMALS
  | ZERO_SUPPLY
deriving DecidableEq

/-- The reason strings pushed by `src/risk.ts` `assessMintRisk`, as an
enumeration; `weirdDecimals` carries the interpolated decimals value of
its template string. -/
inductive Reason
  | nativeSol
  | pumpStyle
  | noRpc
  | mintUnknown
  | uninitialized
  | renounced
  | mintAuthoritySet
  | freezeAuthoritySet
  | decimals9
  | weirdDecimals (d : JsNum)
  | zeroSupply
deriving DecidableEq

/-- `src/risk.ts` `RiskAssessment`. -/
structure RiskAssessment where
  mint : List Char
  score : Int
  level : RiskLevel
  tags : List Tag
  reasons : List Reason
deriving DecidableEq

/-- The parsed mint info consumed by `assessMintRisk` (the fields it reads
off the untyped RPC value): `decimals` and `supply` as the numeric values
their `Number(... ?? default)` coercions produce (`none` when the field is
absent), the two authorities as nullable strings, and `isInitialized` as
the truthiness of that field (`!!info.isInitialized`). -/
structure MintInfo where
  decimals : Option JsNum
  supply : Option JsNum
  mintAuthority : Option (List Char)
  freezeAuthority : Option (List Char)
  isInitialized : Bool
deriving DecidableEq

/-- JS truthiness of a nullable string (`null` and `""` are falsy). -/
def optStrTruthy : Option (List Char) → Bool
  | none => false
  | some s => !s.isEmpty

/-- JS strict equality of a number against a finite literal
(`NaN === x` is false, infinities differ from every finite literal). -/
def JsNum.eqNum : JsNum → ℚ → Bool
  | .num q, r => q = r
  | _, _ => false

/-- JS `>` against a finite literal (`NaN > x` is false). -/
def JsNum.gtNum : JsNum → ℚ → Bool
  | .num q, r => r < q
  | .inf, _ => true
  | _, _ => false

/-- `Array.from(new Set(tags))`: de-duplication keeping the first
occurrence of each element, in insertion order. -/
def jsSetDedup {α : Type} [DecidableEq α] (l : List α) : List α :=
  l.foldl (fun acc t => if t ∈ acc then acc else acc ++ [t]) []

/-- The `level` assignment in `src/risk.ts` `buildResult`:
`MEDIUM` unless `score < 40` (`LOW`) or `score > 70` (`HIGH`). -/
def levelOf (score : Int) : RiskLevel :=
  if score < 40 then .LOW else if score > 70 then .HIGH else .MEDIUM

/-- `src/risk.ts` `buildResult`: clamp the raw score into `[0, 100]`,
derive the level from the clamped score, de-duplicate the tags. -/
def buildResult (mint : List Char) (rawScore : Int) (tags : List Tag)
    (reasons : List Reason) : RiskAssessment :=
  { mint := mint
    score := max 0 (min 100 rawScore)
    level := levelOf (max 0 (min 100 rawScore))
    tags := jsSetDedup tags
    reasons := reasons }

/-- The wrapped-native-asset mint of `src/risk.ts`. -/
def nativeMint : List Char := strChars "So11111111111111111111111111111111111111112"

/-- The launch-platform naming suffix checked by
`mint.endsWith("pump")`. -/
def pumpSuffix : List Char := strChars "pump"

/-- The chain-based heuristics of `src/risk.ts` `assessMintRisk`
(the code after a successful `fetchMintInfo`): uninitialized-account
penalty, authority heuristic, decimals heuristic, zero-supply penalty,
then `buildResult`. The sequential `score += ...` / `tags.push(...)`
mutations of the source are written as one additive sum and one ordered
concatenation; the `else if` of the decimals rule becomes the conjunct
`!(decimals === 9) && decimals > 9`. -/
def assessChain (mint : List Char) (score0 : Int) (tags0 : List Tag)
    (reasons0 : List Reason) (info : MintInfo) : RiskAssessment :=
  let decimals := info.decimals.getD (JsNum.num 0)
  let supply := info.supply.getD (JsNum.num 0)
  let hasMintAuth := optStrTruthy info.mintAuthority
  let hasFreezeAuth := optStrTruthy info.freezeAuthority
  let renounced := !hasMintAuth && !hasFreezeAuth
  let score := score0
    + (if !info.isInitialized then 25 else 0)
    + (if renounced then -15 else 0)
    + (if !renounced && hasMintAuth then 15 else 0)
    + (if !renounced && hasFreezeAuth then 10 else 0)
    + (if !(decimals.eqNum 9) && decimals.gtNum 9 then 10 else 0)
    + (if supply.eqNum 0 then 20 else 0)
  let tags := tags0
    ++ (if !info.isInitialized then [Tag.UNINITIALIZED_MINT] else [])
    ++ (if renounced then [Tag.RENOUNCED] else [])
    ++ (if !renounced && hasMintAuth then [Tag.MINT_AUTHORITY_SET] else [])
    ++ (if !renounced && hasFreezeAuth then [Tag.FREEZE_AUTHORITY_SET] else [])
    ++ (if decimals.eqNum 9 then [Tag.DECIMALS_9] else [])
    ++ (if !(decimals.eqNum 9) && decimals.gtNum 9 then [Tag.WEIRD_DECIMALS] else [])
    ++ (if supply.eqNum 0 then [Tag.ZERO_SUPPLY] else [])
  let reasons := reasons0
    ++ (if !info.isInitialized then [Reason.uninitialized] else [])
    ++ (if renounced then [Reason.renounced] else [])
    ++ (if !renounced && hasMintAuth then [Reason.mintAuthoritySet] else [])
    ++ (if !renounced && hasFreezeAuth then [Reason.freezeAuthoritySet] else [])
    ++ (if decimals.eqNum 9 then [Reason.decimals9] else [])
    ++ (if !(decimals.eqNum 9) && decimals.gtNum 9 then [Reason.weirdDecimals decimals] else [])
    ++ (if supply.eqNum 0 then [Reason.zeroSupply] else [])
  buildResult mint score tags reasons

/-- `src/risk.ts` `assessMintRisk`. `conn` says whether a `Connection`
was passed (the metadata source); `fetched` is the outcome the `await
fetchMintInfo(connection, mint)` call would produce (only consulted when
`conn` is true, exactly as in the source). -/
def assessMintRisk (mint : List Char) (conn : Bool) (fetched : Option MintInfo) :
    RiskAssessment :=
  if mint = nativeMint then
    buildResult mint 10 [Tag.NATIVE_SOL] [Reason.nativeSol]
  else
    let isPump := pumpSuffix.isSuffixOf mint
    let score : Int := 50 + (if isPump then 10 else 0)
    let tags := if isPump then [Tag.PUMP_FUN_STYLE] else []
    let reasons := if isPump then [Reason.pumpStyle] else []
    if conn = false then
      buildResult mint score (tags ++ [Tag.NO_RPC]) (reasons ++ [Reason.noRpc])
    else
      match fetched with
      | none =>
        buildResult mint (score + 20) (tags ++ [Tag.MINT_UNKNOWN])
          (reasons ++ [Reason.mintUnknown])
      | some info => assessChain mint score tags reasons info

/-- `src/index.ts` `LaunchLogEntry`. -/
structure LaunchLogEntry where
  ts : List Char
  slot : Nat
  signature : List Char
  url : List Char
  mint : Option (List Char)
deriving DecidableEq

/-- The worker's `` `https://solscan.io/tx/${signature}` ``. -/
def solscanUrl (signature : List Char) : List Char :=
  strChars "https://solscan.io/tx/" ++ signature

/-- The `LaunchLogEntry` the worker constructs for a dequeued item
(`{ ts, slot, signature, url, mint }`). -/
def resolvedEntry (item : PendingTx) (mint : Option (List Char)) : LaunchLogEntry :=
  { ts := item.ts, slot := item.slot, signature := item.signature,
    url := solscanUrl item.signature, mint := mint }

/-- A token balance as read from `tx.meta.postTokenBalances[i]`. -/
structure TokenBalance where
  mint : List Char
deriving DecidableEq

/-- The part of a transaction the worker reads: `tx?.meta?.postTokenBalances`
(both the `meta` field and the balances array are nullable). -/
structure TxData where
  meta : Option (Option (List TokenBalance))
deriving DecidableEq

/-- Outcome of the single `connection.getTransaction` call: either the
call threw (caught by the worker's inner `catch`) or it returned a
possibly-null transaction. -/
inductive TxLookupResult
  | failure
  | success (tx : Option TxData)
deriving DecidableEq

/-- The worker's mint extraction (`src/index.ts` lines 163-184): `null`
unless the lookup succeeded and `tx?.meta?.postTokenBalances` is a
non-empty array, in which case `balances[0].mint`. The inner
`try { ... } catch { ... }` makes this total: a thrown lookup is caught
and leaves `mint` at `null`. -/
def resolveMintFromLookup : TxLookupResult → Option (List Char)
  | .failure => none
  | .success none => none
  | .success (some t) =>
    match t.meta with
    | none => none
    | some none => none
    | some (some []) => none
    | some (some (b :: _)) => some b.mint

/-- True when the external lookup failed or yielded no token balances
(the hypothesis of claim C7, stated structurally on the raw outcome). -/
def lookupFailedOrNoBalances : TxLookupResult → Bool
  | .failure => true
  | .success none => true
  | .success (some t) =>
    match t.meta with
    | none => true
    | some none => true
    | some (some []) => true
    | some (some (_ :: _)) => false

/-- The body of one productive worker tick, after the item has been
popped (`src/index.ts` lines 157-187): perform the single lookup,
construct the entry, append it to the persistence sink. Returns the
extended sink and the number of external lookup calls made (one by
construction: the body contains exactly one `getTransaction`,
with no retry). -/
def processOne (item : PendingTx) (outcome : TxLookupResult)
    (sink : List LaunchLogEntry) : List LaunchLogEntry × Nat :=
  (sink ++ [resolvedEntry item (resolveMintFromLookup outcome)], 1)

/-- The mutable state of `startMintWorker`: the shared pending queue, the
`processing` flag, the resolutions currently in flight (tracked as a list
so that single-flight is a provable bound, not a typing artifact), and the
persistence sink (`appendLaunch` log). -/
structure WorkerState where
  queue : List PendingTx
  processing : Bool
  inFlight : List PendingTx
  log : List LaunchLogEntry
deriving DecidableEq

/-- Events of the worker's event loop: a `setInterval` tick firing, or an
in-flight resolution completing with some mint outcome (the code from the
first `await` through the `finally`). -/
inductive WorkerEvent
  | tick
  | complete (mint : Option (List Char))
deriving DecidableEq

/-- One event-loop step of `src/index.ts` `startMintWorker`.
A tick: `if (processing) return; if (queue.length === 0) return;`
otherwise shift the head, set `processing = true`, and start its
resolution (it joins `inFlight`). A completion: the oldest in-flight
resolution finishes, its entry is appended to the sink, and the
`finally` clears `processing`; a completion with nothing in flight
cannot occur and is a no-op. -/
def workerStep (s : WorkerState) : WorkerEvent → WorkerState
  | .tick =>
    if s.processing then s
    else
      match s.queue with
      | [] => s
      | item :: rest =>
        { queue := rest, processing := true,
          inFlight := s.inFlight ++ [item], log := s.log }
  | .complete mint =>
    match s.inFlight with
    | [] => s
    | item :: rest =>
      { queue := s.queue, processing := false, inFlight := rest,
        log := s.log ++ [resolvedEntry item mint] }

/-- The worker's initial state: the shared queue, not processing,
nothing in flight, empty log. -/
def workerInit (q : List PendingTx) : WorkerState :=
  { queue := q, processing := false, inFlight := [], log := [] }

/-- The state after an arbitrary event sequence. -/
def workerRun (q : List PendingTx) (evs : List WorkerEvent) : WorkerState :=
  evs.foldl workerStep (workerInit q)

/-- The single-flight invariant: at most one resolution in flight, and
the `processing` flag holds exactly when one is. -/
def SingleFlightInv (s : WorkerState) : Prop :=
  s.inFlight.length ≤ 1 ∧ (s.processing = true ↔ s.inFlight ≠ [])

/-- The whitespace class of the JS regex `\s` for the characters this
format can contain (space, tab, line feed, carriage return, vertical tab,
form feed). -/
def isWsChar (c : Char) : Bool :=
  c == ' ' || c == '\t' || c == '\n' || c == '\r' || c == '\x0b' || c == '\x0c'

/-- `line.trim()`: strip leading and trailing whitespace. -/
def trimChars (l : List Char) : List Char :=
  ((l.dropWhile isWsChar).reverse.dropWhile isWsChar).reverse

/-- One decimal digit as a character. -/
def digitChar : Nat → Char
  | 0 => '0'
  | 1 => '1'
  | 2 => '2'
  | 3 => '3'
  | 4 => '4'
  | 5 => '5'
  | 6 => '6'
  | 7 => '7'
  | 8 => '8'
  | 9 => '9'
  | _ => '*'

/-- The decimal digits of a natural number, most significant first
(`[0]` for zero, no leading zeros otherwise) — the digit sequence a JS
template string `` `${slot}` `` renders for an integer slot. -/
def natDigits (n : Nat) : List Nat :=
  if n < 10 then [n]
  else natDigits (n / 10) ++ [n % 10]
decreasing_by exact Nat.div_lt_self (by omega) (by omega)

/-- Decimal rendering of a natural number as characters. -/
def natToChars (n : Nat) : List Char := (natDigits n).map digitChar

/-- `Number(slotStr)` on a digit string: its decimal value. -/
def digitsToNat (cs : List Char) : Nat :=
  cs.foldl (fun acc c => acc * 10 + (c.toNat - 48)) 0

/-- The literal `slot=` of the line format. -/
def slotKey : List Char := strChars "slot="

/-- The literal `sig=` of the line format. -/
def sigKey : List Char := strChars "sig="

/-- The literal `mint=` of the line format. -/
def mintKey : List Char := strChars "mint="

/-- The literal `url=` of the line format. -/
def urlKey : List Char := strChars "url="

/-- The optional mint segment of `src/index.ts` `appendLaunch`:
`entry.mint ? \` mint=${entry.mint}\` : ""` (a `null` or empty mint is
falsy and contributes nothing). -/
def mintPart (mint : Option (List Char)) : List Char :=
  match mint with
  | none => []
  | some m => if m.isEmpty then [] else ' ' :: (mintKey ++ m)

/-- `src/index.ts` `appendLaunch`'s line
`` `[${ts}] slot=${slot} sig=${signature}${mintPart} url=${url}` ``,
written as the right-nested character sequence the template produces. -/
def appendLaunchLine (e : LaunchLogEntry) : List Char :=
  '[' :: (e.ts ++ (']' :: (' ' :: (slotKey ++ (natToChars e.slot
    ++ (' ' :: (sigKey ++ (e.signature ++ (mintPart e.mint
    ++ (' ' :: (urlKey ++ e.url)))))))))))

/-- Match one expected character (a regex literal). -/
def expectChar (c : Char) (cs : List Char) : Option (List Char) :=
  match cs with
  | x :: rest => if x = c then some rest else none
  | [] => none

/-- Match an expected literal character sequence. -/
def expectStr : List Char → List Char → Option (List Char)
  | [], cs => some cs
  | _ :: _, [] => none
  | p :: ps, c :: cs => if p = c then expectStr ps cs else none

/-- The regex `\s+`: at least one whitespace character, consumed
greedily. -/
def skipWs1 (cs : List Char) : Option (List Char) :=
  match cs with
  | c :: rest => if isWsChar c then some (rest.dropWhile isWsChar) else none
  | [] => none

/-- The regex fragment `\[(.+?)\]`: a non-empty timestamp up to the first
closing bracket (the lazy group's successful match on any line whose
timestamp contains no `]`followed by the bracket itself. The leading
`[` has already been consumed. -/
def parseTsStage (cs : List Char) : Option (List Char × List Char) :=
  let ts := cs.takeWhile (fun c => !(c == ']'))
  let r := cs.dropWhile (fun c => !(c == ']'))
  if ts.isEmpty then none
  else (expectChar ']' r).map fun r2 => (ts, r2)

/-- A regex fragment `\s+key(tok+)`: mandatory whitespace, a literal key,
and a non-empty greedy token of the character class `p`. -/
def parseField (key : List Char) (p : Char → Bool) (cs : List Char) :
    Option (List Char × List Char) :=
  (skipWs1 cs).bind fun cs1 =>
  (expectStr key cs1).bind fun cs2 =>
    let tok := cs2.takeWhile p
    let rest := cs2.dropWhile p
    if tok.isEmpty then none else some (tok, rest)

/-- The optional group `(?:\s+mint=([^\s]+))?`: taken (greedily, as the
regex prefers) exactly when whitespace followed by `mint=` is present;
when not taken it consumes nothing. -/
def parseMintStage (cs : List Char) : Option (Option (List Char) × List Char) :=
  match skipWs1 cs with
  | none => none
  | some cs1 =>
    match expectStr mintKey cs1 with
    | none => some (none, cs)
    | some cs2 =>
      let m := cs2.takeWhile (fun c => !(isWsChar c))
      let rest := cs2.dropWhile (fun c => !(isWsChar c))
      if m.isEmpty then none else some (some m, rest)

/-- `src/index.ts` `parseLogLine`: trim the line and match
`^\[(.+?)\]\s+slot=(\d+)\s+sig=([^\s]+)(?:\s+mint=([^\s]+))?\s+url=(\S+)`,
rebuilding the entry with `Number(slotStr)` for the slot and `null` for an
absent mint. The regex is embedded as a deterministic parser that agrees
with the regex's backtracking match on every line this format produces
(in particular whenever the timestamp contains no `]` and the remaining
fields contain no whitespace). -/
def parseLogLine (line : List Char) : Option LaunchLogEntry :=
  (expectChar '[' (trimChars line)).bind fun r1 =>
  (parseTsStage r1).bind fun tsr =>
  (parseField slotKey Char.isDigit tsr.2).bind fun slotr =>
  (parseField sigKey (fun c => !(isWsChar c)) slotr.2).bind fun sigr =>
  (parseMintStage sigr.2).bind fun mintr =>
  (parseField urlKey (fun c => !(isWsChar c)) mintr.2).bind fun urlr =>
  some { ts := tsr.1, slot := digitsToNat slotr.1, signature := sigr.1,
         url := urlr.1, mint := mintr.1 }

/-- A concrete record with a mint, for the C9 witness. -/
def sampleEntryWithMint : LaunchLogEntry :=
  { ts := strChars "2024-01-01T00:00:00.000Z", slot := 123456,
    signature := strChars "5xyzSig", url := strChars "https://solscan.io/tx/5xyzSig",
    mint := some (strChars "AbCmint111") }

/-- A concrete record without a mint, for the C9 witness. -/
def sampleEntryNoMint : LaunchLogEntry :=
  { ts := strChars "2024-01-01T00:00:00.000Z", slot := 123456,
    signature := strChars "5xyzSig", url := strChars "https://solscan.io/tx/5xyzSig",
    mint := none }

-- ## Proofs

lemma pushAll_append_one (cap : Nat) (evts : List PendingTx) (e : PendingTx) :
    pushAll cap (evts ++ [e]) = pushEvent cap (pushAll cap evts) e := by
  simp [pushAll, List.foldl_append]

/-- The queue state after any arrival sequence: the queue retains the most
recent `min cap N` events and the counter records the rest. -/
lemma pushAll_spec (cap : Nat) (hcap : 1 ≤ cap) (evts : List PendingTx) :
    pushAll cap evts = (evts.drop (evts.length - cap), evts.length - cap) := by
  induction evts using List.reverseRecOn with
  | nil => simp [pushAll]
  | append_singleton evts e ih =>
    rw [pushAll_append_one, ih]
    have hlen2 : (evts ++ [e]).length = evts.length + 1 := by simp
    by_cases h : cap ≤ evts.length
    · have hlen : (evts.drop (evts.length - cap)).length = cap := by
        rw [List.length_drop]
        omega
      have hcond : cap ≤ (evts.drop (evts.length - cap)).length := le_of_eq hlen.symm
      simp only [pushEvent, evictIfFull, if_pos hcond]
      rw [hlen2, List.drop_drop]
      have h1 : evts.length - cap + 1 = evts.length + 1 - cap := by omega
      rw [h1, List.drop_append_eq_append_drop]
      have h3 : evts.length + 1 - cap - evts.length = 0 := by omega
      rw [h3, List.drop_zero]
    · have hdrop : evts.length - cap = 0 := by omega
      rw [hdrop, List.drop_zero]
      simp only [pushEvent, evictIfFull, if_neg h]
      have h2 : (evts ++ [e]).length - cap = 0 := by
        rw [hlen2]
        omega
      rw [h2, List.drop_zero]

/-- Claim C1: for every capacity `C ≥ 1`, after pushing `N > C` events in
arrival order, the queue holds exactly the last `C` pushed events in
arrival order, the drop counter reports exactly `N - C`, and at no point
does the queue length exceed `C`: after every arrival the length is at
most `C`, and the eviction of the head leaves strictly fewer than `C`
elements before the new element is inserted. -/
theorem c1_bounded_queue_drop_oldest (cap : Nat) (evts : List PendingTx)
    (hcap : 1 ≤ cap) (_hN : cap < evts.length) :
    (pushAll cap evts).1 = evts.drop (evts.length - cap)
    ∧ (pushAll cap evts).2 = evts.length - cap
    ∧ ∀ k : Nat,
        (pushAll cap (evts.take k)).1.length ≤ cap
        ∧ (evictIfFull cap (pushAll cap (evts.take k)).1).1.length < cap := by
  refine ⟨?_, ?_, ?_⟩
  · rw [pushAll_spec cap hcap]
  · rw [pushAll_spec cap hcap]
  · intro k
    have hs := pushAll_spec cap hcap (evts.take k)
    have hlen : (pushAll cap (evts.take k)).1.length ≤ cap := by
      rw [hs]
      simp only [List.length_drop]
      omega
    refine ⟨hlen, ?_⟩
    unfold evictIfFull
    split
    · simp only [List.length_drop]
      omega
    · dsimp only
      omega

/-- Witness for C1 at capacity 2 with 3 arrivals: the queue keeps the last
two events and one drop is counted. -/
theorem c1_bounded_queue_drop_oldest_witness :
    (pushAll 2 [sampleTx1, sampleTx2, sampleTx3]).1
        = [sampleTx1, sampleTx2, sampleTx3].drop 1
    ∧ (pushAll 2 [sampleTx1, sampleTx2, sampleTx3]).2 = 1 :=
  ⟨(c1_bounded_queue_drop_oldest 2 [sampleTx1, sampleTx2, sampleTx3]
      (by decide) (by decide)).1,
   (c1_bounded_queue_drop_oldest 2 [sampleTx1, sampleTx2, sampleTx3]
      (by decide) (by decide)).2.1⟩

/-- Claim C6: the worker's tick interval equals
`max(1000 / configured_rate_per_second, 200 ms)` for every configured rate,
so the effective processing rate never exceeds 5 operations per second,
whatever rate the caller configures (including any value the
`MINT_FETCH_RPS` validation can produce). -/
theorem c6_tick_interval_floor :
    (∀ rps : ℚ, 0 < rps →
      intervalMs rps = max (1000 / rps) 200 ∧ 1000 / intervalMs rps ≤ 5)
    ∧ ∀ raw : Option JsNum, 200 ≤ intervalMs (mintFetchRpsOf raw) := by
  constructor
  · intro rps _
    refine ⟨rfl, ?_⟩
    have h200 : (200 : ℚ) ≤ intervalMs rps := le_max_right _ _
    have hpos : (0 : ℚ) < intervalMs rps := lt_of_lt_of_le (by norm_num) h200
    rw [div_le_iff₀ hpos]
    linarith
  · intro _
    exact le_max_right _ _

/-- Witness for C6 at the concrete configured rate 100 tx/s:
the floor applies and the interval is 200 ms. -/
theorem c6_tick_interval_floor_witness :
    intervalMs 100 = max (1000 / 100) 200 ∧ 1000 / intervalMs 100 ≤ 5 :=
  c6_tick_interval_floor.1 100 (by norm_num)

/-- Counterexample to claim C8 as stated: with `MINT_QUEUE_MAX` and
`MINT_FETCH_RPS` both parsing to the invalid value `0`, startup does not
fail; it silently proceeds with the defaults (capacity 2000, rate 3). -/
theorem c8_zero_config_not_fatal :
    startupConfig (some (JsNum.num 0)) (some (JsNum.num 0))
      = { queueMax := 2000, rps := 3 } := by
  decide

/-- Claim C8 (amended): a zero or otherwise invalid queue capacity, or an
invalid (non-finite or non-positive) rate, is not fatal at startup; the
configuration stage is total and silently replaces any invalid value with
its default (capacity 2000, rate 3), so the effective configuration is
always valid (capacity > 100 and rate > 0). -/
theorem c8_invalid_config_silently_defaulted :
    ∀ rawQueueMax rawRps : Option JsNum,
      100 < (startupConfig rawQueueMax rawRps).queueMax
      ∧ 0 < (startupConfig rawQueueMax rawRps).rps := by
  intro rawQueueMax rawRps
  constructor
  · cases rawQueueMax with
    | none => norm_num [startupConfig, mintQueueMaxOf]
    | some n =>
      cases n with
      | num q =>
        by_cases h : q ≤ 100
        · simp only [startupConfig, mintQueueMaxOf, if_pos h]
          norm_num
        · simp only [startupConfig, mintQueueMaxOf, if_neg h]
          linarith [not_le.mp h]
      | nan => norm_num [startupConfig, mintQueueMaxOf]
      | inf => norm_num [startupConfig, mintQueueMaxOf]
      | negInf => norm_num [startupConfig, mintQueueMaxOf]
  · cases rawRps with
    | none => norm_num [startupConfig, mintFetchRpsOf]
    | some n =>
      cases n with
      | num q =>
        by_cases h : q ≤ 0
        · simp only [startupConfig, mintFetchRpsOf, if_pos h]
          norm_num
        · simp only [startupConfig, mintFetchRpsOf, if_neg h]
          linarith [not_le.mp h]
      | nan => norm_num [startupConfig, mintFetchRpsOf]
      | inf => norm_num [startupConfig, mintFetchRpsOf]
      | negInf => norm_num [startupConfig, mintFetchRpsOf]

/-- Claim C10: any `MINT_QUEUE_MAX` environment value that parses to a
number ≤ 100 (including the spec-valid capacities 1..100) or to a
non-finite number is silently replaced by the default 2000, and the
effective capacity used by watch mode is always strictly greater
than 100. -/
theorem c10_small_capacity_replaced_by_default :
    (∀ n : JsNum, (∀ q : ℚ, n = JsNum.num q → q ≤ 100)
        → mintQueueMaxOf (some n) = 2000)
    ∧ ∀ raw : Option JsNum, 100 < mintQueueMaxOf raw := by
  constructor
  · intro n h
    cases n with
    | num q => simp only [mintQueueMaxOf, if_pos (h q rfl)]
    | nan => rfl
    | inf => rfl
    | negInf => rfl
  · intro raw
    cases raw with
    | none => norm_num [mintQueueMaxOf]
    | some n =>
      cases n with
      | num q =>
        by_cases h : q ≤ 100
        · simp only [mintQueueMaxOf, if_pos h]
          norm_num
        · simp only [mintQueueMaxOf, if_neg h]
          linarith [not_le.mp h]
      | nan => norm_num [mintQueueMaxOf]
      | inf => norm_num [mintQueueMaxOf]
      | negInf => norm_num [mintQueueMaxOf]

/-- Witness for C10 at the concrete configured capacity 100:
it is replaced by the default 2000, which exceeds 100. -/
theorem c10_small_capacity_replaced_by_default_witness :
    mintQueueMaxOf (some (JsNum.num 100)) = 2000
    ∧ 100 < mintQueueMaxOf (some (JsNum.num 100)) :=
  ⟨c10_small_capacity_replaced_by_default.1 (JsNum.num 100)
      (fun q hq => by injection hq with h; rw [← h]),
   c10_small_capacity_replaced_by_default.2 _⟩

lemma jsSetDedup_aux_nodup {α : Type} [DecidableEq α] (l acc : List α)
    (h : acc.Nodup) :
    (l.foldl (fun acc t => if t ∈ acc then acc else acc ++ [t]) acc).Nodup := by
  induction l generalizing acc with
  | nil => exact h
  | cons x xs ih =>
    simp only [List.foldl_cons]
    by_cases hx : x ∈ acc
    · rw [if_pos hx]
      exact ih acc h
    · rw [if_neg hx]
      refine ih _ ?_
      simp [List.nodup_append, h, hx]

lemma jsSetDedup_nodup {α : Type} [DecidableEq α] (l : List α) :
    (jsSetDedup l).Nodup :=
  jsSetDedup_aux_nodup l [] List.nodup_nil

lemma buildResult_ok (mint : List Char) (rawScore : Int) (tags : List Tag)
    (reasons : List Reason) :
    0 ≤ (buildResult mint rawScore tags reasons).score
    ∧ (buildResult mint rawScore tags reasons).score ≤ 100
    ∧ (buildResult mint rawScore tags reasons).level
        = levelOf (buildResult mint rawScore tags reasons).score
    ∧ (buildResult mint rawScore tags reasons).tags.Nodup := by
  refine ⟨le_max_left 0 _, ?_, rfl, jsSetDedup_nodup tags⟩
  simp only [buildResult]
  rw [max_le_iff]
  exact ⟨by norm_num, min_le_left _ _⟩

/-- Claim C2: every `RiskAssessment` the scorer returns has an integer
score clamped into `[0, 100]` (integrality is by construction: the model
scores with `Int`, mirroring the integer deltas of the source), a level
that is the pure function of the score (`< 40` low, `> 70` high, medium
otherwise), and duplicate-free tags. -/
theorem c2_assessment_invariants (mint : List Char) (conn : Bool)
    (fetched : Option MintInfo) :
    0 ≤ (assessMintRisk mint conn fetched).score
    ∧ (assessMintRisk mint conn fetched).score ≤ 100
    ∧ (assessMintRisk mint conn fetched).level
        = levelOf (assessMintRisk mint conn fetched).score
    ∧ (assessMintRisk mint conn fetched).tags.Nodup := by
  unfold assessMintRisk
  split
  · exact buildResult_ok ..
  · split
    · exact buildResult_ok ..
    · cases fetched with
      | none => exact buildResult_ok ..
      | some info =>
        unfold assessChain
        exact buildResult_ok ..

/-- Claim C3: for the canonical wrapped-native-asset mint, whatever the
metadata source and lookup outcome, the scorer returns immediately with
exactly the fixed low score 10, the single native-asset tag (the code's
`NATIVE_SOL`, the spec's `NATIVE_ASSET`), one reason, and nothing else
from the remaining rules. -/
theorem c3_native_asset_short_circuit (conn : Bool) (fetched : Option MintInfo) :
    assessMintRisk nativeMint conn fetched
      = { mint := nativeMint, score := 10, level := RiskLevel.LOW,
          tags := [Tag.NATIVE_SOL], reasons := [Reason.nativeSol] } := by
  rfl

/-- Counterexample to claim C4 as stated: a mint ending in the platform
suffix (here `"testpump"`), with a metadata source present and a lookup
that returns nothing, scores 80 = 50 + 10 (suffix bonus) + 20 (unknown
penalty), not baseline 50 + the unknown-mint penalty alone. -/
theorem c4_pump_suffix_breaks_unknown_score :
    (assessMintRisk (strChars "testpump") true none).score ≠ 50 + 20 := by
  decide

/-- Claim C4 (amended): when a metadata source is provided but the lookup
returns no result, for any mint other than the native asset the scorer
returns baseline 50, plus the platform-suffix bonus 10 when the mint ends
in `"pump"`, plus the unknown-mint penalty 20; the tag list is exactly the
suffix tag (when applicable) followed by `MINT_UNKNOWN`, and no
chain-based rule (authority, decimals, supply) contributes. -/
theorem c4_unknown_mint_short_circuit (mint : List Char)
    (h : mint ≠ nativeMint) :
    (assessMintRisk mint true none).score
        = 50 + (if pumpSuffix.isSuffixOf mint then 10 else 0) + 20
    ∧ (assessMintRisk mint true none).tags
        = (if pumpSuffix.isSuffixOf mint then [Tag.PUMP_FUN_STYLE] else [])
            ++ [Tag.MINT_UNKNOWN]
    ∧ (assessMintRisk mint true none).reasons
        = (if pumpSuffix.isSuffixOf mint then [Reason.pumpStyle] else [])
            ++ [Reason.mintUnknown] := by
  unfold assessMintRisk
  rw [if_neg h]
  by_cases hp : pumpSuffix.isSuffixOf mint
  · simp only [hp, if_true]
    rw [if_neg (by decide : ¬ (true = false))]
    simp only [buildResult]
    refine ⟨by decide, by decide, by decide⟩
  · simp only [hp, if_false, Bool.false_eq_true]
    rw [if_neg (by decide : ¬ (true = false))]
    simp only [buildResult]
    refine ⟨by decide, by decide, by decide⟩

/-- Witness for C4 (amended) at the concrete non-native mint `"abc"`:
score 70, tags exactly `[MINT_UNKNOWN]`. -/
theorem c4_unknown_mint_short_circuit_witness :
    (assessMintRisk (strChars "abc") true none).score
        = 50 + (if pumpSuffix.isSuffixOf (strChars "abc") then 10 else 0) + 20
    ∧ (assessMintRisk (strChars "abc") true none).tags
        = (if pumpSuffix.isSuffixOf (strChars "abc") then [Tag.PUMP_FUN_STYLE] else [])
            ++ [Tag.MINT_UNKNOWN] :=
  ⟨(c4_unknown_mint_short_circuit (strChars "abc") (by decide)).1,
   (c4_unknown_mint_short_circuit (strChars "abc") (by decide)).2.1⟩

/-- Claim C7: for every dequeued event whose lookup fails or yields no
token balances, the resolution step completes without raising (it is a
total function of the outcome, the inner catch absorbing the failure),
performs exactly one external lookup call, and the degraded record with
`mint = null` is still appended to the persistence sink. -/
theorem c7_degraded_record_still_sinks (item : PendingTx)
    (outcome : TxLookupResult) (sink : List LaunchLogEntry)
    (h : lookupFailedOrNoBalances outcome = true) :
    processOne item outcome sink = (sink ++ [resolvedEntry item none], 1) := by
  unfold processOne
  have hmint : resolveMintFromLookup outcome = none := by
    cases outcome with
    | failure => rfl
    | success tx =>
      cases tx with
      | none => rfl
      | some t =>
        obtain ⟨meta⟩ := t
        simp only [lookupFailedOrNoBalances] at h
        cases meta with
        | none => rfl
        | some bals =>
          cases bals with
          | none => rfl
          | some l =>
            cases l with
            | nil => rfl
            | cons b rest => simp at h
  rw [hmint]

/-- Witness for C7 at a concrete failed lookup on `sampleTx1` with an
empty sink. -/
theorem c7_degraded_record_still_sinks_witness :
    processOne sampleTx1 TxLookupResult.failure []
      = ([resolvedEntry sampleTx1 none], 1) :=
  c7_degraded_record_still_sinks sampleTx1 TxLookupResult.failure [] (by decide)

lemma workerStep_preserves_inv (s : WorkerState) (e : WorkerEvent)
    (h : SingleFlightInv s) : SingleFlightInv (workerStep s e) := by
  obtain ⟨hlen, hiff⟩ := h
  cases e with
  | tick =>
    by_cases hp : s.processing
    · simp only [workerStep, if_pos hp]
      exact ⟨hlen, hiff⟩
    · have hnil : s.inFlight = [] := by
        by_contra hne
        exact hp (hiff.mpr hne)
      simp only [workerStep, if_neg hp]
      cases hq : s.queue with
      | nil => exact ⟨hlen, hiff⟩
      | cons item rest =>
        refine ⟨?_, ?_⟩
        · simp [hnil]
        · simp [hnil]
  | complete mint =>
    cases hf : s.inFlight with
    | nil =>
      simp only [workerStep, hf]
      exact ⟨hlen, hiff⟩
    | cons item rest =>
      have hrest : rest = [] := by
        rw [hf] at hlen
        simp only [List.length_cons] at hlen
        exact List.eq_nil_of_length_eq_zero (by omega)
      simp only [workerStep, hf]
      refine ⟨by simp [hrest], ?_⟩
      simp [hrest]

lemma workerRun_inv (q : List PendingTx) (evs : List WorkerEvent) :
    SingleFlightInv (workerRun q evs) := by
  suffices hgen : ∀ (l : List WorkerEvent) (s : WorkerState),
      SingleFlightInv s → SingleFlightInv (l.foldl workerStep s) by
    exact hgen evs (workerInit q) ⟨by simp [workerInit], by simp [workerInit]⟩
  intro l
  induction l with
  | nil => intro s hs; exact hs
  | cons e l ih =>
    intro s hs
    exact ih (workerStep s e) (workerStep_preserves_inv s e hs)

/-- Claim C5: the worker is single-flight. In every state reachable from
the initial one, at most one resolution is in flight; a tick that fires
while the worker is busy changes nothing (it neither pops the queue nor
records any retry); and when the in-flight work completes, the busy flag
is cleared. -/
theorem c5_single_flight (q : List PendingTx) (evs : List WorkerEvent)
    (mint : Option (List Char)) :
    (workerRun q evs).inFlight.length ≤ 1
    ∧ ((workerRun q evs).processing = true
        → workerStep (workerRun q evs) WorkerEvent.tick = workerRun q evs)
    ∧ ((workerRun q evs).processing = true
        → (workerStep (workerRun q evs) (WorkerEvent.complete mint)).processing
            = false) := by
  obtain ⟨hlen, hiff⟩ := workerRun_inv q evs
  refine ⟨hlen, ?_, ?_⟩
  · intro hp
    simp only [workerStep, if_pos hp]
  · intro hp
    have hne : (workerRun q evs).inFlight ≠ [] := hiff.mp hp
    cases hf : (workerRun q evs).inFlight with
    | nil => exact absurd hf hne
    | cons item rest => simp only [workerStep, hf]

/-- Witness for C5 on the concrete trace `[tick]` from queue
`[sampleTx1]`: the worker is busy after the tick, a second tick is a
no-op, and completion clears the flag. -/
theorem c5_single_flight_witness :
    (workerRun [sampleTx1] [WorkerEvent.tick]).processing = true
    ∧ workerStep (workerRun [sampleTx1] [WorkerEvent.tick]) WorkerEvent.tick
        = workerRun [sampleTx1] [WorkerEvent.tick]
    ∧ (workerStep (workerRun [sampleTx1] [WorkerEvent.tick])
          (WorkerEvent.complete none)).processing = false :=
  ⟨by decide,
   (c5_single_flight [sampleTx1] [WorkerEvent.tick] none).2.1 (by decide),
   (c5_single_flight [sampleTx1] [WorkerEvent.tick] none).2.2 (by decide)⟩

lemma optBind_some {α β : Type} (a : α) (f : α → Option β) :
    (some a).bind f = f a := rfl

lemma optMap_some {α β : Type} (a : α) (f : α → β) :
    (some a).map f = some (f a) := rfl

lemma takeWhile_append_cons {p : Char → Bool} (xs : List Char)
    (hxs : ∀ x ∈ xs, p x = true) (y : Char) (ys : List Char)
    (hy : p y = false) : ((xs ++ y :: ys).takeWhile p) = xs := by
  induction xs with
  | nil => simp [List.takeWhile_cons, hy]
  | cons x xs ih =>
    have hx : p x = true := hxs x (List.mem_cons_self x xs)
    simp only [List.cons_append, List.takeWhile_cons, hx, if_true]
    rw [ih (fun z hz => hxs z (List.mem_cons_of_mem x hz))]

lemma dropWhile_append_cons {p : Char → Bool} (xs : List Char)
    (hxs : ∀ x ∈ xs, p x = true) (y : Char) (ys : List Char)
    (hy : p y = false) : ((xs ++ y :: ys).dropWhile p) = y :: ys := by
  induction xs with
  | nil => simp [List.dropWhile_cons, hy]
  | cons x xs ih =>
    have hx : p x = true := hxs x (List.mem_cons_self x xs)
    simp only [List.cons_append, List.dropWhile_cons, hx, if_true]
    exact ih (fun z hz => hxs z (List.mem_cons_of_mem x hz))

lemma takeWhile_all {p : Char → Bool} (xs : List Char)
    (hxs : ∀ x ∈ xs, p x = true) : xs.takeWhile p = xs := by
  induction xs with
  | nil => rfl
  | cons x xs ih =>
    have hx : p x = true := hxs x (List.mem_cons_self x xs)
    simp only [List.takeWhile_cons, hx, if_true]
    rw [ih (fun z hz => hxs z (List.mem_cons_of_mem x hz))]

lemma dropWhile_all {p : Char → Bool} (xs : List Char)
    (hxs : ∀ x ∈ xs, p x = true) : xs.dropWhile p = [] := by
  induction xs with
  | nil => rfl
  | cons x xs ih =>
    have hx : p x = true := hxs x (List.mem_cons_self x xs)
    simp only [List.dropWhile_cons, hx, if_true]
    exact ih (fun z hz => hxs z (List.mem_cons_of_mem x hz))

lemma dropWhile_cons_false {p : Char → Bool} (x : Char) (xs : List Char)
    (h : p x = false) : (x :: xs).dropWhile p = x :: xs := by
  simp [List.dropWhile_cons, h]

lemma expectChar_cons_self (c : Char) (cs : List Char) :
    expectChar c (c :: cs) = some cs := by
  simp [expectChar]

lemma expectStr_self_append (pat rest : List Char) :
    expectStr pat (pat ++ rest) = some rest := by
  induction pat with
  | nil => rfl
  | cons p ps ih => simp [expectStr, ih]

lemma skipWs1_cons (y : Char) (ys : List Char) (hy : isWsChar y = false) :
    skipWs1 (' ' :: y :: ys) = some (y :: ys) := by
  simp only [skipWs1, if_pos (by decide : isWsChar ' ' = true)]
  rw [dropWhile_cons_false y ys hy]

lemma trimChars_eq_self_of (l : List Char)
    (h1 : ∃ x xs, l = x :: xs ∧ isWsChar x = false)
    (h2 : ∃ y ys, l.reverse = y :: ys ∧ isWsChar y = false) :
    trimChars l = l := by
  obtain ⟨x, xs, rfl, hx⟩ := h1
  obtain ⟨y, ys, hrev, hyw⟩ := h2
  unfold trimChars
  rw [dropWhile_cons_false x xs hx, hrev, dropWhile_cons_false y ys hyw,
    ← hrev, List.reverse_reverse]

lemma reverse_cons_of_ne_nil (url : List Char) (h : url ≠ []) :
    ∃ u us, url.reverse = u :: us ∧ u ∈ url := by
  cases hcase : url.reverse with
  | nil =>
    exact absurd (by simpa using congrArg List.reverse hcase) h
  | cons u us =>
    refine ⟨u, us, rfl, ?_⟩
    rw [← List.mem_reverse, hcase]
    exact List.mem_cons_self u us

lemma natDigits_lt_ten (n : Nat) : ∀ d ∈ natDigits n, d < 10 := by
  induction n using Nat.strong_induction_on with
  | _ n ih =>
    rw [natDigits]
    split
    next h =>
      intro d hd
      simp only [List.mem_singleton] at hd
      omega
    next h =>
      intro d hd
      rw [List.mem_append] at hd
      rcases hd with hd | hd
      · exact ih (n / 10) (Nat.div_lt_self (by omega) (by omega)) d hd
      · simp only [List.mem_singleton] at hd
        omega

lemma natDigits_ne_nil (n : Nat) : natDigits n ≠ [] := by
  rw [natDigits]
  split
  · simp
  · simp

lemma natDigits_val (n : Nat) :
    (natDigits n).foldl (fun acc d => acc * 10 + d) 0 = n := by
  induction n using Nat.strong_induction_on with
  | _ n ih =>
    rw [natDigits]
    split
    next h => simp
    next h =>
      rw [List.foldl_append, ih (n / 10) (Nat.div_lt_self (by omega) (by omega))]
      simp only [List.foldl_cons, List.foldl_nil]
      omega

lemma digitChar_spec (d : Nat) (h : d < 10) :
    (digitChar d).isDigit = true ∧ isWsChar (digitChar d) = false
    ∧ (digitChar d).toNat - 48 = d := by
  interval_cases d <;> exact ⟨by decide, by decide, by decide⟩

lemma foldl_digitChar (ds : List Nat) (h : ∀ d ∈ ds, d < 10) (a : Nat) :
    ds.foldl (fun acc d => acc * 10 + ((digitChar d).toNat - 48)) a
      = ds.foldl (fun acc d => acc * 10 + d) a := by
  induction ds generalizing a with
  | nil => rfl
  | cons d ds ih =>
    simp only [List.foldl_cons]
    rw [(digitChar_spec d (h d (List.mem_cons_self d ds))).2.2]
    exact ih (fun x hx => h x (List.mem_cons_of_mem d hx)) _

lemma digitsToNat_natToChars (n : Nat) : digitsToNat (natToChars n) = n := by
  unfold digitsToNat natToChars
  rw [List.foldl_map]
  rw [foldl_digitChar (natDigits n) (natDigits_lt_ten n) 0]
  exact natDigits_val n

lemma natToChars_ne_nil (n : Nat) : natToChars n ≠ [] := by
  unfold natToChars
  simp [natDigits_ne_nil n]

lemma natToChars_isDigit (n : Nat) : ∀ c ∈ natToChars n, c.isDigit = true := by
  intro c hc
  unfold natToChars at hc
  rw [List.mem_map] at hc
  obtain ⟨d, hd, rfl⟩ := hc
  exact (digitChar_spec d (natDigits_lt_ten n d hd)).1

lemma parseTsStage_spec (ts rest : List Char) (hne : ts ≠ [])
    (hc : ∀ c ∈ ts, (c == ']') = false) :
    parseTsStage (ts ++ (']' :: rest)) = some (ts, rest) := by
  unfold parseTsStage
  have htw : ((ts ++ ']' :: rest).takeWhile (fun c => !(c == ']'))) = ts :=
    takeWhile_append_cons ts (fun x hx => by rw [hc x hx]; rfl) ']' rest (by decide)
  have hdw : ((ts ++ ']' :: rest).dropWhile (fun c => !(c == ']'))) = ']' :: rest :=
    dropWhile_append_cons ts (fun x hx => by rw [hc x hx]; rfl) ']' rest (by decide)
  rw [htw, hdw]
  rw [if_neg (by simp [hne])]
  rw [expectChar_cons_self, optMap_some]

lemma parseField_spec_mid (key : List Char) (p : Char → Bool) (k0 : Char)
    (krest : List Char) (hkey : key = k0 :: krest) (hk0 : isWsChar k0 = false)
    (tok : List Char) (htok : tok ≠ []) (htokp : ∀ c ∈ tok, p c = true)
    (y : Char) (ys : List Char) (hy : p y = false) :
    parseField key p (' ' :: (key ++ (tok ++ y :: ys))) = some (tok, y :: ys) := by
  unfold parseField
  rw [hkey, List.cons_append, skipWs1_cons k0 (krest ++ (tok ++ y :: ys)) hk0,
    optBind_some, ← List.cons_append, ← hkey, expectStr_self_append, optBind_some]
  rw [takeWhile_append_cons tok htokp y ys hy,
    dropWhile_append_cons tok htokp y ys hy]
  rw [if_neg (by simp [htok])]

lemma parseField_spec_end (key : List Char) (p : Char → Bool) (k0 : Char)
    (krest : List Char) (hkey : key = k0 :: krest) (hk0 : isWsChar k0 = false)
    (tok : List Char) (htok : tok ≠ []) (htokp : ∀ c ∈ tok, p c = true) :
    parseField key p (' ' :: (key ++ tok)) = some (tok, []) := by
  unfold parseField
  rw [hkey, List.cons_append, skipWs1_cons k0 (krest ++ tok) hk0,
    optBind_some, ← List.cons_append, ← hkey, expectStr_self_append, optBind_some]
  rw [takeWhile_all tok htokp, dropWhile_all tok htokp]
  rw [if_neg (by simp [htok])]

lemma parseMintStage_absent (rest : List Char) :
    parseMintStage (' ' :: (urlKey ++ rest)) = some (none, ' ' :: (urlKey ++ rest)) := by
  unfold parseMintStage
  rw [show urlKey ++ rest = 'u' :: (strChars "rl=" ++ rest) from rfl,
    skipWs1_cons 'u' (strChars "rl=" ++ rest) (by decide)]
  rfl

lemma parseMintStage_present (m rest : List Char) (hne : m ≠ [])
    (hm : ∀ c ∈ m, isWsChar c = false) :
    parseMintStage (' ' :: (mintKey ++ (m ++ ' ' :: rest)))
      = some (some m, ' ' :: rest) := by
  unfold parseMintStage
  rw [show mintKey ++ (m ++ ' ' :: rest) = 'm' :: (strChars "int=" ++ (m ++ ' ' :: rest)) from rfl,
    skipWs1_cons 'm' (strChars "int=" ++ (m ++ ' ' :: rest)) (by decide)]
  dsimp only
  rw [show ('m' :: (strChars "int=" ++ (m ++ ' ' :: rest))) = mintKey ++ (m ++ ' ' :: rest) from rfl,
    expectStr_self_append]
  dsimp only
  have hp : ∀ c ∈ m, (!(isWsChar c)) = true := fun c hc => by rw [hm c hc]; rfl
  rw [takeWhile_append_cons m hp ' ' rest (by decide),
    dropWhile_append_cons m hp ' ' rest (by decide)]
  rw [if_neg (by simp [hne])]

lemma exists_reverse_head (pre url : List Char) (hurl : url ≠ [])
    (hw : ∀ c ∈ url, isWsChar c = false) :
    ∃ y ys, (pre ++ url).reverse = y :: ys ∧ isWsChar y = false := by
  obtain ⟨u, us, hu, humem⟩ := reverse_cons_of_ne_nil url hurl
  exact ⟨u, us ++ pre.reverse,
    by rw [List.reverse_append, hu, List.cons_append], hw u humem⟩

/-- Claim C9: the persistence line format round-trips. For every record
whose timestamp is non-empty, bracket-free and whitespace-free, and whose
signature, URL and (when present) mint are non-empty and whitespace-free,
parsing the line the sink's formatter produces yields the record back
exactly — timestamp, slot, signature, mint and URL all preserved, with an
absent mint round-tripping to `null`. -/
theorem c9_log_line_round_trip (e : LaunchLogEntry)
    (hts : e.ts ≠ []) (htsb : ∀ c ∈ e.ts, (c == ']') = false)
    (_htsw : ∀ c ∈ e.ts, isWsChar c = false)
    (hsig : e.signature ≠ []) (hsigw : ∀ c ∈ e.signature, isWsChar c = false)
    (hurl : e.url ≠ []) (hurlw : ∀ c ∈ e.url, isWsChar c = false)
    (hmint : ∀ m, e.mint = some m → m ≠ [] ∧ ∀ c ∈ m, isWsChar c = false) :
    parseLogLine (appendLaunchLine e) = some e := by
  have hsigp : ∀ c ∈ e.signature, (!(isWsChar c)) = true :=
    fun c hc => by rw [hsigw c hc]; rfl
  have hurlp : ∀ c ∈ e.url, (!(isWsChar c)) = true :=
    fun c hc => by rw [hurlw c hc]; rfl
  cases hm : e.mint with
  | none =>
    have hmp : mintPart e.mint = [] := by rw [hm]; rfl
    have hline : appendLaunchLine e
        = '[' :: (e.ts ++ (']' :: (' ' :: (slotKey ++ (natToChars e.slot
          ++ (' ' :: (sigKey ++ (e.signature
          ++ (' ' :: (urlKey ++ e.url)))))))))) := by
      unfold appendLaunchLine
      rw [hmp, List.nil_append]
    have hsplit : appendLaunchLine e
        = ('[' :: (e.ts ++ (']' :: (' ' :: (slotKey ++ (natToChars e.slot
          ++ (' ' :: (sigKey ++ (e.signature ++ (' ' :: urlKey)))))))))) ++ e.url := by
      rw [hline]
      simp only [List.cons_append, List.append_assoc]
    have htrim : trimChars (appendLaunchLine e) = appendLaunchLine e := by
      refine trimChars_eq_self_of _ ⟨'[', _, hline, by decide⟩ ?_
      rw [hsplit]
      exact exists_reverse_head _ e.url hurl hurlw
    have hts_eq := parseTsStage_spec e.ts
      (' ' :: (slotKey ++ (natToChars e.slot ++ (' ' :: (sigKey
        ++ (e.signature ++ (' ' :: (urlKey ++ e.url)))))))) hts htsb
    have hslot_eq := parseField_spec_mid slotKey Char.isDigit 's'
      (strChars "lot=") rfl (by decide) (natToChars e.slot)
      (natToChars_ne_nil e.slot) (natToChars_isDigit e.slot) ' '
      (sigKey ++ (e.signature ++ (' ' :: (urlKey ++ e.url)))) (by decide)
    have hsig_eq := parseField_spec_mid sigKey (fun c => !(isWsChar c)) 's'
      (strChars "ig=") rfl (by decide) e.signature hsig hsigp ' '
      (urlKey ++ e.url) (by decide)
    have hmint_eq := parseMintStage_absent e.url
    have hurl_eq := parseField_spec_end urlKey (fun c => !(isWsChar c)) 'u'
      (strChars "rl=") rfl (by decide) e.url hurl hurlp
    unfold parseLogLine
    rw [htrim, hline]
    simp only [expectChar_cons_self, optBind_some, hts_eq, hslot_eq, hsig_eq,
      hmint_eq, hurl_eq]
    rw [digitsToNat_natToChars, ← hm]
  | some m =>
    obtain ⟨hmne, hmw⟩ := hmint m hm
    have hmpp : ∀ c ∈ m, (!(isWsChar c)) = true :=
      fun c hc => by rw [hmw c hc]; rfl
    have hmp : mintPart e.mint = ' ' :: (mintKey ++ m) := by
      rw [hm]
      unfold mintPart
      dsimp only
      rw [if_neg (by simp [hmne])]
    have hline : appendLaunchLine e
        = '[' :: (e.ts ++ (']' :: (' ' :: (slotKey ++ (natToChars e.slot
          ++ (' ' :: (sigKey ++ (e.signature
          ++ (' ' :: (mintKey ++ (m
          ++ (' ' :: (urlKey ++ e.url))))))))))))) := by
      unfold appendLaunchLine
      rw [hmp]
      simp only [List.cons_append, List.append_assoc]
    have hsplit : appendLaunchLine e
        = ('[' :: (e.ts ++ (']' :: (' ' :: (slotKey ++ (natToChars e.slot
          ++ (' ' :: (sigKey ++ (e.signature ++ (' ' :: (mintKey ++ (m
          ++ (' ' :: urlKey))))))))))))) ++ e.url := by
      rw [hline]
      simp only [List.cons_append, List.append_assoc]
    have htrim : trimChars (appendLaunchLine e) = appendLaunchLine e := by
      refine trimChars_eq_self_of _ ⟨'[', _, hline, by decide⟩ ?_
      rw [hsplit]
      exact exists_reverse_head _ e.url hurl hurlw
    have hts_eq := parseTsStage_spec e.ts
      (' ' :: (slotKey ++ (natToChars e.slot ++ (' ' :: (sigKey
        ++ (e.signature ++ (' ' :: (mintKey ++ (m
        ++ (' ' :: (urlKey ++ e.url))))))))))) hts htsb
    have hslot_eq := parseField_spec_mid slotKey Char.isDigit 's'
      (strChars "lot=") rfl (by decide) (natToChars e.slot)
      (natToChars_ne_nil e.slot) (natToChars_isDigit e.slot) ' '
      (sigKey ++ (e.signature ++ (' ' :: (mintKey ++ (m
        ++ (' ' :: (urlKey ++ e.url))))))) (by decide)
    have hsig_eq := parseField_spec_mid sigKey (fun c => !(isWsChar c)) 's'
      (strChars "ig=") rfl (by decide) e.signature hsig hsigp ' '
      (mintKey ++ (m ++ (' ' :: (urlKey ++ e.url)))) (by decide)
    have hmint_eq := parseMintStage_present m (urlKey ++ e.url) hmne hmw
    have hurl_eq := parseField_spec_end urlKey (fun c => !(isWsChar c)) 'u'
      (strChars "rl=") rfl (by decide) e.url hurl hurlp
    unfold parseLogLine
    rw [htrim, hline]
    simp only [expectChar_cons_self, optBind_some, hts_eq, hslot_eq, hsig_eq,
      hmint_eq, hurl_eq]
    rw [digitsToNat_natToChars, ← hm]

/-- Witness for C9 on two concrete records, one with a mint and one
without. -/
theorem c9_log_line_round_trip_witness :
    parseLogLine (appendLaunchLine sampleEntryWithMint) = some sampleEntryWithMint
    ∧ parseLogLine (appendLaunchLine sampleEntryNoMint) = some sampleEntryNoMint :=
  ⟨c9_log_line_round_trip sampleEntryWithMint (by decide) (by decide) (by decide)
      (by decide) (by decide) (by decide) (by decide)
      (fun m hm => by
        injection hm with h
        rw [← h]
        exact ⟨by decide, by decide⟩),
   c9_log_line_round_trip sampleEntryNoMint (by decide) (by decide) (by decide)
      (by decide) (by decide) (by decide) (by decide)
      (fun m hm => by injection hm)⟩

end PumpGuard
